import Mathlib

/-!
Verification of the transcript-acquisition core of the `nate-alyzer-tool`
repository (`youtube_fetcher_module/youtube_fetcher/client.py`,
class `YouTubeFetcher`).

The code is shallowly embedded: pure string manipulation is translated to
executable functions on `String`/`List Char`; every interaction with the
network, the filesystem and the two third-party libraries (`yt_dlp`,
`youtube_transcript_api`, `requests`, `xml.etree`) is abstracted as an
oracle parameter (a function supplied to the embedded code), so that the
control flow of the Python source — strategy ordering, skip conditions,
exception catching, result composition — is modelled faithfully and can be
examined for any oracle behaviour.  Python exceptions are modelled with
`Except`; Python `None` with `Option`; the truthiness tests the source
performs on strings, lists and `Option` values are modelled by explicit
emptiness checks.  Character classes are modelled over the ASCII ranges
that the source's regexes (`[A-Za-z0-9_-]`) name explicitly; whitespace is
modelled by `Char.isWhitespace` (space, tab, CR, LF), covering the
whitespace forms relevant here.
-/

/-! ### Python string primitives used by the source -/

/-- The character class of the source's regexes: `[A-Za-z0-9_-]`. -/
def idChar (c : Char) : Bool := c.isAlphanum || c == '_' || c == '-'

/-- `str.strip()` on a character list: drop whitespace from both ends. -/
def stripChars (cs : List Char) : List Char :=
  ((cs.dropWhile Char.isWhitespace).reverse.dropWhile Char.isWhitespace).reverse

/-- Python `str.strip()`. -/
def pyStrip (s : String) : String := String.mk (stripChars s.data)

/-- Python `str.startswith(p)`. -/
def pyStartsWith (s p : String) : Bool := p.data.isPrefixOf s.data

/-- Substring containment on character lists (Python `needle in hay`). -/
def listContainsSub (needle : List Char) : List Char → Bool
  | [] => needle.isEmpty
  | c :: t => needle.isPrefixOf (c :: t) || listContainsSub needle t

/-- Python `needle in hay` for strings. -/
def containsSub (hay needle : String) : Bool := listContainsSub needle.data hay.data

/-- Python `str.isdigit()` (ASCII digits). -/
def pyIsDigit (s : String) : Bool := !s.data.isEmpty && s.data.all Char.isDigit

/-- Worker for `str.splitlines()`: split on `\r\n`, `\r` and `\n`;
`acc` holds the characters of the current line in reverse. -/
def splitlinesAux : List Char → List Char → List String
  | [], acc => if acc.isEmpty then [] else [String.mk acc.reverse]
  | '\x0d' :: '\n' :: t, acc => String.mk acc.reverse :: splitlinesAux t []
  | '\n' :: t, acc => String.mk acc.reverse :: splitlinesAux t []
  | '\x0d' :: t, acc => String.mk acc.reverse :: splitlinesAux t []
  | c :: t, acc => splitlinesAux t (c :: acc)

/-- Python `str.splitlines()` (for the line separators occurring in VTT
caption payloads: `\n`, `\r`, `\r\n`). -/
def pySplitlines (s : String) : List String := splitlinesAux s.data []

/-- Characters of `sep.join(parts)`. -/
def joinChars (sep : List Char) : List (List Char) → List Char
  | [] => []
  | [l] => l
  | l :: l2 :: ls => l ++ sep ++ joinChars sep (l2 :: ls)

/-- Python `sep.join(parts)`. -/
def pyJoin (sep : String) (parts : List String) : String :=
  String.mk (joinChars sep.data (parts.map String.data))

/-- Python `s.replace('\n', ' ')` (single-character replacement). -/
def pyReplaceNlSpace (s : String) : String :=
  String.mk (s.data.map fun c => if c == '\n' then ' ' else c)

/-! ### `YouTubeFetcher.extract_video_id`

The source tries, in order: `re.fullmatch(r"[A-Za-z0-9_-]{11}", url)` on the
stripped input, then `re.search` for `youtu\.be/([A-Za-z0-9_-]{11})`,
`v=([A-Za-z0-9_-]{11})` and `/embed/([A-Za-z0-9_-]{11})`, raising
`ValueError` if none matches.  Each regex is a fixed literal followed by a
group of exactly 11 class characters, so `re.search` is modelled by a
leftmost scan (`searchPat`) that at each position checks the literal and
then 11 class characters. -/

/-- One `re.search` attempt at the current position: the literal `lit`
followed by exactly 11 `idChar` characters. -/
def matchAt (lit cs : List Char) : Option (List Char) :=
  if lit.isPrefixOf cs then
    let cand := (cs.drop lit.length).take 11
    if cand.length == 11 && cand.all idChar then some cand else none
  else none

/-- Leftmost search for `lit` followed by 11 `idChar` characters, as
`re.search` does for these fixed-shape patterns. -/
def searchPat (lit : List Char) : List Char → Option (List Char)
  | [] => matchAt lit []
  | c :: t =>
    match matchAt lit (c :: t) with
    | some m => some m
    | none => searchPat lit t

/-- Literal part of the short-link pattern `youtu\.be/(...)`. -/
def yBeLit : List Char := ['y', 'o', 'u', 't', 'u', '.', 'b', 'e', '/']

/-- Literal part of the watch-query pattern `v=(...)`. -/
def vEqLit : List Char := ['v', '=']

/-- Literal part of the embed-path pattern `/embed/(...)`. -/
def embLit : List Char := ['/', 'e', 'm', 'b', 'e', 'd', '/']

/-- `YouTubeFetcher.extract_video_id`.  `Except.error` models the raised
`ValueError`, whose message interpolates the (stripped, since the source
rebinds `url = url.strip()`) input. -/
def extract_video_id (url : String) : Except String String :=
  let u := pyStrip url
  if u.data.length == 11 && u.data.all idChar then .ok u
  else
    match searchPat yBeLit u.data with
    | some m => .ok (String.mk m)
    | none =>
      match searchPat vEqLit u.data with
      | some m => .ok (String.mk m)
      | none =>
        match searchPat embLit u.data with
        | some m => .ok (String.mk m)
        | none => .error ("Unable to extract video ID from: " ++ u)

/-! ### `YouTubeFetcher._get_date_via_ytdlp` and the fetch environment -/

/-- Python truthiness of the optional `cookies_path` argument
(`not cookies_path`): `None` and the empty string are falsy. -/
def cpTruthy : Option String → Bool
  | none => false
  | some s => !s.data.isEmpty

/-- The source's cookie-file option:
`cookies_path if cookies_path and os.path.exists(cookies_path) else None`.
`pathExists` is the filesystem oracle standing for `os.path.exists`. -/
def cookiefileOpt (cp : Option String) (pathExists : String → Bool) : Option String :=
  match cp with
  | some p => if !p.data.isEmpty && pathExists p then some p else none
  | none => none

/-- Environment of oracles for one `get_transcript` call.
`dateInfo` stands for the `yt_dlp` metadata extraction performed by
`_get_date_via_ytdlp` (argument: the cookie file passed in the options;
`Except.error` = any raised exception/timeout, `Option String` = the
`info.get('upload_date')` field).  `strat i` stands for the body of the
`i`-th transcript strategy closure (`Except.error` = raised exception,
`Option String` = its return value).  `pathExists` stands for
`os.path.exists`. -/
structure FetchEnv where
  dateInfo : Option String → Except Unit (Option String)
  strat : Nat → Except String (Option String)
  pathExists : String → Bool

/-- The source's reformatting of an 8-digit `YYYYMMDD` field:
`f"{d[:4]}-{d[4:6]}-{d[6:]}"`. -/
def fmtUploadDate (d : String) : String :=
  String.mk (d.data.take 4) ++ "-" ++ String.mk ((d.data.drop 4).take 2) ++ "-" ++
    String.mk (d.data.drop 6)

/-- `YouTubeFetcher._get_date_via_ytdlp`: wraps the whole metadata
extraction in `try/except`, returning `"unknown"` on any exception, a
missing field, or a field whose length is not 8 (the source checks
`upload_date and len(upload_date) == 8`). -/
def get_date_via_ytdlp (env : FetchEnv) (cp : Option String) : String :=
  match env.dateInfo (cookiefileOpt cp env.pathExists) with
  | .error _ => "unknown"
  | .ok none => "unknown"
  | .ok (some d) =>
    if !d.data.isEmpty && d.data.length == 8 then fmtUploadDate d else "unknown"

/-! ### `YouTubeFetcher.get_transcript` (the strategy ladder) -/

/-- The `strategies` list of `get_transcript`: the source's strategy names
paired with the index used to look the strategy body up in the oracle. -/
def strategyPairs : List (String × Nat) :=
  [("YouTubeTranscriptApi (No Cookies)", 0),
   ("yt-dlp Android Client", 1),
   ("yt-dlp Web Client", 2),
   ("YouTubeTranscriptApi (With Cookies)", 3),
   ("Manual TimedText API", 4)]

/-- The source's skip condition inside the ladder loop:
`"Cookies" in name and not cookies_path and "No Cookies" not in name`. -/
def skipStrategy (name : String) (cp : Option String) : Bool :=
  containsSub name "Cookies" && !cpTruthy cp && !containsSub name "No Cookies"

/-- Python truthiness of a strategy's return value (`if content:`):
`None` and the empty string are falsy. -/
def contentTruthy : Option String → Bool
  | none => false
  | some s => !s.data.isEmpty

/-- `True` when an attempted strategy does not deliver the ladder's
success: it raised, returned `None`, or returned an empty string. -/
def stratAttemptFails (r : Except String (Option String)) : Bool :=
  match r with
  | .error _ => true
  | .ok c => !contentTruthy c

/-- The `for name, strategy in strategies:` loop of `get_transcript`:
skip by name, call the strategy inside `try/except`, return the first
truthy content.  Also returns the list of indices of the strategies that
were actually invoked, in invocation order. -/
def tryStrategies (o : Nat → Except String (Option String)) (cp : Option String) :
    List (String × Nat) → Option String × List Nat
  | [] => (none, [])
  | (name, i) :: rest =>
    if skipStrategy name cp then tryStrategies o cp rest
    else
      match o i with
      | .error _ =>
        let p := tryStrategies o cp rest
        (p.1, i :: p.2)
      | .ok content =>
        if contentTruthy content then (content, [i])
        else
          let p := tryStrategies o cp rest
          (p.1, i :: p.2)

/-- Instrumentation record for one `get_transcript` call: how many times
the publish-date resolver ran and which strategies were invoked. -/
structure FetchTrace where
  dateCalls : Nat
  attempted : List Nat
deriving DecidableEq

/-- `YouTubeFetcher.get_transcript`, with its trace.  The source catches
the `ValueError` from `extract_video_id` and returns `(None, "unknown")`,
then resolves the date once, then runs the ladder; every path ends in a
`return`, so the call never raises (`Except.ok` everywhere). -/
def get_transcript_traced (env : FetchEnv) (video_url : String) (cp : Option String) :
    Except String (Option String × String) × FetchTrace :=
  match extract_video_id video_url with
  | .error _ => (.ok (none, "unknown"), ⟨0, []⟩)
  | .ok _vid =>
    let publish_date := get_date_via_ytdlp env cp
    let p := tryStrategies env.strat cp strategyPairs
    (.ok (p.1, publish_date), ⟨1, p.2⟩)

/-- `YouTubeFetcher.get_transcript`: the value the caller sees. -/
def get_transcript (env : FetchEnv) (video_url : String) (cp : Option String) :
    Except String (Option String × String) :=
  (get_transcript_traced env video_url cp).1

/-- An environment in which the date extraction raises, every strategy
raises, and no filesystem path exists. -/
def failEnv : FetchEnv :=
  ⟨fun _ => .error (), fun _ => .error "network unreachable", fun _ => false⟩

/-! ### `YouTubeFetcher._list_tracks` and `_fetch_manual` -/

/-- Caption-track metadata as built by `_list_tracks` from the XML track
elements: each field is `tr.get(attr)`, which is `None` when the attribute
is absent. -/
structure Track where
  id : Option String
  lang_code : Option String
  kind : Option String
  displayName : Option String
deriving DecidableEq

/-- `YouTubeFetcher._list_tracks`.  `resp` stands for
`requests.get(list_url, timeout=15)` (`Except.error` = network
error/timeout); `parseTracks` stands for `ET.fromstring` plus the
`findall('.//track')` attribute extraction (`Except.error` = parse
failure).  The whole body is inside `try/except: return []`, and a non-200
status or blank body leaves `tracks = []`. -/
def list_tracks (resp : Except Unit (Nat × String))
    (parseTracks : String → Except Unit (List Track)) : List Track :=
  match resp with
  | .error _ => []
  | .ok (status, text) =>
    if status == 200 && !(pyStrip text).data.isEmpty then
      match parseTracks text with
      | .error _ => []
      | .ok ts => ts
    else []

/-- The `score` key of `_fetch_manual`: `+100` for `lang == 'en'`, else
`+50` for `lang.startswith('en')`; `+20` for `kind != 'asr'`.  The source
reads `lang = t.get('lang_code', '')`, which is the stored value and may be
`None`, in which case `lang == 'en'` is `False` and `lang.startswith('en')`
raises `AttributeError`; `none` models that raise. -/
def score (t : Track) : Option Int :=
  match t.lang_code with
  | none => none
  | some l =>
    let s0 : Int := 0
    let s1 := if l = "en" then s0 + 100 else if pyStartsWith l "en" then s0 + 50 else s0
    some (if t.kind ≠ some "asr" then s1 + 20 else s1)

/-- Total version of `score` used under the guarantee that no key raised
(the guard in `fetch_manual` establishes it). -/
def scoreD (t : Track) : Int := (score t).getD 0

/-- `tracks.sort(key=score, reverse=True)`: a stable sort, descending by
score.  Insertion sort with the relation "score at least as large" is
exactly such a stable descending sort. -/
def sortTracks (ts : List Track) : List Track :=
  List.insertionSort (fun a b => scoreD b ≤ scoreD a) ts

/-- `tracks[0]` after the sort: the track whose caption payload
`_fetch_manual` will fetch. -/
def selectedTrack (ts : List Track) : Option Track := (sortTracks ts).head?

/-- Oracles for `_fetch_manual`: `fetchTrack` stands for
`requests.get(track_url, timeout=15)` applied to the chosen track id
(`Except.error` = raised network error; otherwise status code and body);
`parseTexts` stands for `ET.fromstring` plus `findall('.//text')`
(`Except.error` = parse failure; each element's `.text` may be `None`). -/
structure ManualEnv where
  fetchTrack : String → Except String (Nat × String)
  parseTexts : String → Except Unit (List (Option String))

/-- `YouTubeFetcher._fetch_manual`, given the already-listed tracks:
return `None` for an empty listing; sort by score (raising if any key
raises — modelled by the `any` guard); fetch the best track's payload when
it has a truthy id; on HTTP 200 with non-blank body, parse and join the
truthy text nodes; XML errors are swallowed (`except: pass`), network
errors propagate (the orchestrator catches them). -/
def fetch_manual (env : ManualEnv) (ts : List Track) : Except String (Option String) :=
  if ts.isEmpty then .ok none
  else if ts.any (fun t => (score t).isNone) then .error "AttributeError"
  else
    match selectedTrack ts with
    | none => .ok none
    | some best =>
      match best.id with
      | none => .ok none
      | some bid =>
        if bid.data.isEmpty then .ok none
        else
          match env.fetchTrack bid with
          | .error e => .error e
          | .ok (status, body) =>
            if status == 200 && !(pyStrip body).data.isEmpty then
              match env.parseTexts body with
              | .error _ => .ok none
              | .ok nodeTexts =>
                let texts := nodeTexts.filterMap fun o =>
                  match o with
                  | none => none
                  | some s => if s.data.isEmpty then none else some s
                if texts.isEmpty then .ok none
                else .ok (some (pyReplaceNlSpace (pyJoin " " texts)))
            else .ok none

/-! ### `YouTubeFetcher._read_and_clean_vtt` (caption-file cleaning) -/

/-- The keep condition of the cleaning loop: the source discards a
stripped line `s` when
`not s or s.startswith("WEBVTT") or "-->" in s or s.isdigit()`. -/
def keepLine (s : String) : Bool :=
  !(s.data.isEmpty || pyStartsWith s "WEBVTT" || containsSub s "-->" || pyIsDigit s)

/-- The cleaning performed by `_read_and_clean_vtt` on the file contents:
strip each line, drop blank/header/cue/sequence-number lines, join the
rest with single spaces, and apply the final `.replace('\n', ' ')`. -/
def cleanVtt (vtt : String) : String :=
  let kept := ((pySplitlines vtt).map pyStrip).filter keepLine
  pyReplaceNlSpace (pyJoin " " kept)

/-- `YouTubeFetcher._read_and_clean_vtt`: reading the file may raise
(`contents = .error`), in which case the `except` clause returns `None`. -/
def read_and_clean_vtt (contents : Except Unit String) : Option String :=
  match contents with
  | .error _ => none
  | .ok vtt => some (cleanVtt vtt)


/-- An environment whose date extraction succeeds with `upload_date =
"20240115"` while every transcript strategy raises. -/
def dateOkEnv : FetchEnv :=
  ⟨fun _ => .ok (some "20240115"), fun _ => .error "blocked", fun _ => true⟩

/-- An environment whose date extraction yields a malformed (6-character)
`upload_date` field. -/
def shortDateEnv : FetchEnv :=
  ⟨fun _ => .ok (some "202401"), fun _ => .error "blocked", fun _ => true⟩

/-- An environment in which strategies 1-4 fail and strategy 5 (index 4,
the manual timedtext strategy) returns text. -/
def fifthSucceedsEnv : FetchEnv :=
  ⟨fun _ => .error (),
   fun i => if i == 4 then .ok (some "strategy five text") else .error "blocked",
   fun _ => true⟩


/-- Scenario track `{en, manual}` (no `kind` attribute on manual tracks). -/
def trackEnManual : Track := ⟨some "t1", some "en", none, some "English"⟩

/-- Scenario track `{en, auto}` (`kind="asr"`). -/
def trackEnAuto : Track := ⟨some "t2", some "en", some "asr", some "English (auto)"⟩

/-- Scenario track `{en-US, manual}`. -/
def trackEnUsManual : Track := ⟨some "t3", some "en-US", none, some "English (US)"⟩

/-- A second `{en, manual}` track, tied in score with `trackEnManual`. -/
def otherEnManual : Track := ⟨some "t9", some "en", none, none⟩

/-- A manual-strategy environment that delivers a caption payload only for
track id `"t1"` and fails for every other id. -/
def manualScenarioEnv : ManualEnv :=
  ⟨fun tid =>
      if tid == "t1" then .ok (200, "<transcript><text>hello world</text></transcript>")
      else .error "wrong track fetched",
   fun _ => .ok [some "hello world"]⟩

/-! ### Helper lemmas -/

theorem str_data_append (a b : String) : (a ++ b).data = a.data ++ b.data := rfl

theorem eleven_chars (l : List Char) (h : l.length = 11) :
    ∃ c0 c1 c2 c3 c4 c5 c6 c7 c8 c9 c10,
      l = [c0, c1, c2, c3, c4, c5, c6, c7, c8, c9, c10] := by
  rcases l with _ | ⟨c0, _ | ⟨c1, _ | ⟨c2, _ | ⟨c3, _ | ⟨c4, _ | ⟨c5, _ | ⟨c6, _ | ⟨c7, _ | ⟨c8,
    _ | ⟨c9, _ | ⟨c10, _ | ⟨c11, t⟩⟩⟩⟩⟩⟩⟩⟩⟩⟩⟩⟩ <;> simp at h
  exact ⟨c0, c1, c2, c3, c4, c5, c6, c7, c8, c9, c10, rfl⟩

theorem idChar_ne_of (c : Char) (h : idChar c = true) (d : Char) (hd : idChar d = false) :
    (c == d) = false := by
  cases hcd : c == d with
  | false => rfl
  | true =>
    have : c = d := eq_of_beq hcd
    subst this
    rw [h] at hd
    cases hd

theorem idChar_not_ws (c : Char) (h : idChar c = true) : c.isWhitespace = false := by
  cases hw : c.isWhitespace with
  | false => rfl
  | true =>
    have hc : ((c = ' ' ∨ c = '\t') ∨ c = '\x0d') ∨ c = '\n' := by
      simpa [Char.isWhitespace] using hw
    rcases hc with ((rfl | rfl) | rfl) | rfl <;> simp [idChar] at h

theorem matchAt_some (lit cs m : List Char) (h : matchAt lit cs = some m) :
    m.length = 11 ∧ m.all idChar = true := by
  simp only [matchAt] at h
  split at h
  · split at h
    · rename_i hcond
      obtain ⟨hlen, hall⟩ := (Bool.and_eq_true _ _).mp hcond
      cases h
      exact ⟨eq_of_beq hlen, hall⟩
    · cases h
  · cases h

theorem searchPat_some (lit cs m : List Char) (h : searchPat lit cs = some m) :
    m.length = 11 ∧ m.all idChar = true := by
  induction cs with
  | nil => exact matchAt_some lit [] m h
  | cons c t ih =>
    rw [searchPat] at h
    cases hm : matchAt lit (c :: t) with
    | some m2 =>
      rw [hm] at h
      injection h with h2
      subst h2
      exact matchAt_some lit (c :: t) m2 hm
    | none =>
      rw [hm] at h
      exact ih h

/-! ### C6: video-ID extraction -/

set_option maxHeartbeats 2000000 in
/-- C6: `extract_video_id` tests the shapes in the fixed source order
(trimmed exact 11-character ID, then short-link `youtu.be/<id>`, then
watch-query `v=<id>`, then embed-path `/embed/<id>`) and returns the first
match; every recognized URL shape carrying the same ID yields that
identical canonical ID; on inputs matching no shape it fails with the
`ValueError` whose message names the (stripped) original input; and every
successful result matches `[A-Za-z0-9_-]{11}`. -/
theorem c6_extract_video_id_shapes :
    (∀ url : String,
        ((pyStrip url).data.length == 11 && (pyStrip url).data.all idChar) = true →
        extract_video_id url = .ok (pyStrip url)) ∧
    (∀ url : String, ∀ m,
        ((pyStrip url).data.length == 11 && (pyStrip url).data.all idChar) = false →
        searchPat yBeLit (pyStrip url).data = some m →
        extract_video_id url = .ok (String.mk m)) ∧
    (∀ url : String, ∀ m,
        ((pyStrip url).data.length == 11 && (pyStrip url).data.all idChar) = false →
        searchPat yBeLit (pyStrip url).data = none →
        searchPat vEqLit (pyStrip url).data = some m →
        extract_video_id url = .ok (String.mk m)) ∧
    (∀ url : String, ∀ m,
        ((pyStrip url).data.length == 11 && (pyStrip url).data.all idChar) = false →
        searchPat yBeLit (pyStrip url).data = none →
        searchPat vEqLit (pyStrip url).data = none →
        searchPat embLit (pyStrip url).data = some m →
        extract_video_id url = .ok (String.mk m)) ∧
    (∀ url : String,
        ((pyStrip url).data.length == 11 && (pyStrip url).data.all idChar) = false →
        searchPat yBeLit (pyStrip url).data = none →
        searchPat vEqLit (pyStrip url).data = none →
        searchPat embLit (pyStrip url).data = none →
        extract_video_id url = .error ("Unable to extract video ID from: " ++ pyStrip url)) ∧
    (∀ vid : String, vid.data.length = 11 → vid.data.all idChar = true →
        extract_video_id vid = .ok vid ∧
        extract_video_id ("https://youtu.be/" ++ vid) = .ok vid ∧
        extract_video_id ("https://www.youtube.com/watch?v=" ++ vid ++ "&t=5") = .ok vid ∧
        extract_video_id ("https://www.youtube.com/embed/" ++ vid) = .ok vid) ∧
    (∀ url s, extract_video_id url = .ok s →
        s.data.length = 11 ∧ s.data.all idChar = true) := by
  refine ⟨?_, ?_, ?_, ?_, ?_, ?_, ?_⟩
  · intro url h
    simp only [extract_video_id]
    rw [if_pos h]
  · intro url m hnm hy
    simp only [extract_video_id]
    rw [if_neg (by rw [hnm]; exact Bool.false_ne_true), hy]
  · intro url m hnm hy hv
    simp only [extract_video_id]
    rw [if_neg (by rw [hnm]; exact Bool.false_ne_true), hy, hv]
  · intro url m hnm hy hv he
    simp only [extract_video_id]
    rw [if_neg (by rw [hnm]; exact Bool.false_ne_true), hy, hv, he]
  · intro url hnm hy hv he
    simp only [extract_video_id]
    rw [if_neg (by rw [hnm]; exact Bool.false_ne_true), hy, hv, he]
  · intro vid hlen hall
    obtain ⟨l⟩ := vid
    have hl : l.length = 11 := hlen
    obtain ⟨c0, c1, c2, c3, c4, c5, c6, c7, c8, c9, c10, rfl⟩ := eleven_chars l hl
    simp only [List.all_cons, List.all_nil, Bool.and_eq_true, and_true] at hall
    obtain ⟨h0, h1, h2, h3, h4, h5, h6, h7, h8, h9, h10⟩ := hall
    have n5 := idChar_ne_of c5 h5 '.' (by decide)
    have n6 := idChar_ne_of c6 h6 '.' (by decide)
    have n7 := idChar_ne_of c7 h7 '.' (by decide)
    have n8 := idChar_ne_of c8 h8 '.' (by decide)
    have n9 := idChar_ne_of c9 h9 '.' (by decide)
    have n10 := idChar_ne_of c10 h10 '.' (by decide)
    have e0 := idChar_ne_of c0 h0 '=' (by decide)
    have e1 := idChar_ne_of c1 h1 '=' (by decide)
    have e2 := idChar_ne_of c2 h2 '=' (by decide)
    have e3 := idChar_ne_of c3 h3 '=' (by decide)
    have e4 := idChar_ne_of c4 h4 '=' (by decide)
    have e5 := idChar_ne_of c5 h5 '=' (by decide)
    have e6 := idChar_ne_of c6 h6 '=' (by decide)
    have e7 := idChar_ne_of c7 h7 '=' (by decide)
    have e8 := idChar_ne_of c8 h8 '=' (by decide)
    have e9 := idChar_ne_of c9 h9 '=' (by decide)
    have e10 := idChar_ne_of c10 h10 '=' (by decide)
    have w0 := idChar_not_ws c0 h0
    have w10 := idChar_not_ws c10 h10
    refine ⟨?_, ?_, ?_, ?_⟩
    · simp +decide [extract_video_id, pyStrip, stripChars, h0, h1, h2, h3, h4, h5, h6, h7, h8,
        h9, h10, w0, w10]
    · simp +decide [extract_video_id, pyStrip, stripChars, str_data_append, searchPat, matchAt,
        yBeLit, List.isPrefixOf, h0, h1, h2, h3, h4, h5, h6, h7, h8, h9, h10, w10]
    · simp +decide [extract_video_id, pyStrip, stripChars, str_data_append, searchPat, matchAt,
        yBeLit, vEqLit, List.isPrefixOf, n5, n6, n7, n8, n9, n10, h0, h1, h2, h3, h4, h5, h6,
        h7, h8, h9, h10, w0, w10]
    · simp +decide [extract_video_id, pyStrip, stripChars, str_data_append, searchPat, matchAt,
        yBeLit, vEqLit, embLit, List.isPrefixOf, n5, n6, n7, n8, n9, n10,
        e0, e1, e2, e3, e4, e5, e6, e7, e8, e9, e10,
        h0, h1, h2, h3, h4, h5, h6, h7, h8, h9, h10, w10]
  · intro url s h
    simp only [extract_video_id] at h
    split at h
    · rename_i hcond
      obtain ⟨hlen, hall⟩ := (Bool.and_eq_true _ _).mp hcond
      cases h
      exact ⟨eq_of_beq hlen, hall⟩
    · cases hy : searchPat yBeLit (pyStrip url).data with
      | some m =>
        rw [hy] at h
        injection h with h2
        obtain ⟨hl, ha⟩ := searchPat_some _ _ _ hy
        subst h2
        exact ⟨hl, ha⟩
      | none =>
        rw [hy] at h
        cases hv : searchPat vEqLit (pyStrip url).data with
        | some m =>
          rw [hv] at h
          injection h with h2
          obtain ⟨hl, ha⟩ := searchPat_some _ _ _ hv
          subst h2
          exact ⟨hl, ha⟩
        | none =>
          rw [hv] at h
          cases he : searchPat embLit (pyStrip url).data with
          | some m =>
            rw [he] at h
            injection h with h2
            obtain ⟨hl, ha⟩ := searchPat_some _ _ _ he
            subst h2
            exact ⟨hl, ha⟩
          | none =>
            rw [he] at h
            cases h

/-- Witness for C6: the shape-equivalence and ordering facts applied at the
spec's concrete example ID and at a concrete non-matching input. -/
theorem c6_extract_video_id_shapes_witness :
    extract_video_id "jNQXAC9IVRw" = .ok "jNQXAC9IVRw" ∧
    extract_video_id "https://youtu.be/jNQXAC9IVRw" = .ok "jNQXAC9IVRw" ∧
    extract_video_id "https://www.youtube.com/watch?v=jNQXAC9IVRw&t=5" = .ok "jNQXAC9IVRw" ∧
    extract_video_id "https://www.youtube.com/embed/jNQXAC9IVRw" = .ok "jNQXAC9IVRw" ∧
    extract_video_id "not a url" = .error "Unable to extract video ID from: not a url" := by
  obtain ⟨-, -, -, -, h5, h6, -⟩ := c6_extract_video_id_shapes
  have hs := h6 "jNQXAC9IVRw" (by decide) (by decide)
  have hf := h5 "not a url" (by decide) (by decide) (by decide) (by decide)
  exact ⟨hs.1, hs.2.1, hs.2.2.1, hs.2.2.2, hf⟩

/-! ### C10: the watch-query pattern matches `v=` anywhere -/

/-- C10 counterexample: the claim says that for any string containing
`v=` followed by 11 ID characters, extraction returns those 11 characters.
The input `"youtu.be/aaaaaaaaaaav=bbbbbbbbbbb"` contains
`v=bbbbbbbbbbb`, yet extraction returns `"aaaaaaaaaaa"` because the
short-link pattern is tried first. -/
theorem c10_counterexample :
    containsSub "youtu.be/aaaaaaaaaaav=bbbbbbbbbbb" "v=bbbbbbbbbbb" = true ∧
    extract_video_id "youtu.be/aaaaaaaaaaav=bbbbbbbbbbb" = .ok "aaaaaaaaaaa" ∧
    "aaaaaaaaaaa" ≠ "bbbbbbbbbbb" := by
  exact ⟨by decide, rfl, by decide⟩

/-- C10 (amended): extraction does succeed on inputs that are none of the
three documented URL shapes — whenever neither the exact-ID test nor the
short-link pattern applies, any occurrence of `v=` followed by 11
characters of `[A-Za-z0-9_-]` (even embedded in unrelated text) makes
extraction return the 11 characters after the first such occurrence,
instead of failing. -/
theorem c10_v_eq_matches_anywhere (url : String) (m : List Char)
    (hnm : ((pyStrip url).data.length == 11 && (pyStrip url).data.all idChar) = false)
    (hy : searchPat yBeLit (pyStrip url).data = none)
    (hv : searchPat vEqLit (pyStrip url).data = some m) :
    extract_video_id url = .ok (String.mk m) := by
  simp only [extract_video_id]
  rw [if_neg (by rw [hnm]; exact Bool.false_ne_true), hy, hv]

/-- Witness for C10 (amended) on plain text that is not a URL shape. -/
theorem c10_v_eq_matches_anywhere_witness :
    extract_video_id "some plain text with v=abcdefghijk inside" = .ok "abcdefghijk" := by
  exact c10_v_eq_matches_anywhere "some plain text with v=abcdefghijk inside"
    "abcdefghijk".data (by decide) (by decide) (by decide)

/-! ### Ladder lemmas -/

theorem tryStrategies_all_fail (o : Nat → Except String (Option String)) (cp : Option String) :
    ∀ l : List (String × Nat),
      (∀ p ∈ l, skipStrategy p.1 cp = true ∨ stratAttemptFails (o p.2) = true) →
      tryStrategies o cp l = (none, (l.filter fun p => !skipStrategy p.1 cp).map Prod.snd)
  | [], _ => rfl
  | (name, i) :: rest, h => by
    have hrest := tryStrategies_all_fail o cp rest fun p hp => h p (List.mem_cons_of_mem _ hp)
    have hhead := h (name, i) (List.mem_cons_self _ _)
    rw [tryStrategies]
    cases hs : skipStrategy name cp with
    | true =>
      simp [hrest, List.filter_cons, hs]
    | false =>
      rcases hhead with hsk | hf
      · rw [hs] at hsk; cases hsk
      · simp only [stratAttemptFails] at hf
        cases ho : o i with
        | error e =>
          simp [hrest, List.filter_cons, hs]
        | ok c =>
          rw [ho] at hf
          simp only [Bool.not_eq_true'] at hf
          simp [hf, hrest, List.filter_cons, hs]

theorem tryStrategies_first_success (o : Nat → Except String (Option String))
    (cp : Option String) :
    ∀ (l1 : List (String × Nat)) (name : String) (i : Nat) (l2 : List (String × Nat))
      (c : Option String),
      (∀ p ∈ l1, skipStrategy p.1 cp = true ∨ stratAttemptFails (o p.2) = true) →
      skipStrategy name cp = false →
      o i = .ok c →
      contentTruthy c = true →
      tryStrategies o cp (l1 ++ (name, i) :: l2) =
        (c, (l1.filter fun p => !skipStrategy p.1 cp).map Prod.snd ++ [i])
  | [], name, i, l2, c, _, hns, ho, hc => by
    rw [List.nil_append, tryStrategies]
    simp [hns, ho, hc]
  | (nm, j) :: l1, name, i, l2, c, h, hns, ho, hc => by
    have hrest := tryStrategies_first_success o cp l1 name i l2 c
      (fun p hp => h p (List.mem_cons_of_mem _ hp)) hns ho hc
    have hhead := h (nm, j) (List.mem_cons_self _ _)
    rw [List.cons_append, tryStrategies]
    cases hs : skipStrategy nm cp with
    | true =>
      simp [hrest, List.filter_cons, hs]
    | false =>
      rcases hhead with hsk | hf
      · rw [hs] at hsk; cases hsk
      · simp only [stratAttemptFails] at hf
        cases hoj : o j with
        | error e =>
          simp [hrest, List.filter_cons, hs]
        | ok c2 =>
          rw [hoj] at hf
          simp only [Bool.not_eq_true'] at hf
          simp [hf, hrest, List.filter_cons, hs]

/-! ### C1: invalid video reference handling -/

/-- C1 counterexample: the claim says `get_transcript` raises the
invalid-video-reference error to the caller.  In the source the
`ValueError` raised by `extract_video_id` is caught inside
`get_transcript`, which returns `(None, "unknown")` instead: at the
non-extractable input `"not a url"` the call returns normally. -/
theorem c1_counterexample :
    extract_video_id "not a url" = .error "Unable to extract video ID from: not a url" ∧
    get_transcript failEnv "not a url" none = .ok (none, "unknown") :=
  ⟨rfl, rfl⟩

/-- C1 (amended): for every input from which no video ID can be
extracted, `get_transcript` fails fast — before the date resolver or any
strategy runs, and independently of every oracle — but by catching the
invalid-video-reference error and returning `(None, "unknown")` to the
caller, not by raising. -/
theorem c1_invalid_input_returns_unknown (env : FetchEnv) (url : String)
    (cp : Option String) (e : String) (h : extract_video_id url = .error e) :
    get_transcript_traced env url cp = (.ok (none, "unknown"), ⟨0, []⟩) := by
  simp only [get_transcript_traced]
  rw [h]

/-- Witness for C1 (amended) at the concrete input `"not a url"`. -/
theorem c1_invalid_input_returns_unknown_witness :
    get_transcript_traced failEnv "not a url" none = (.ok (none, "unknown"), ⟨0, []⟩) :=
  c1_invalid_input_returns_unknown failEnv "not a url" none
    "Unable to extract video ID from: not a url" rfl

/-! ### C2: which strategies are skipped without a usable credential -/

/-- C2 counterexample: the claim says that with no cookie path, or with a
non-existent cookie path, strategies 3 and 4 (indices 2 and 3) are not
attempted.  In the source the skip test is
`"Cookies" in name and not cookies_path and "No Cookies" not in name`:
strategy 3's name `"yt-dlp Web Client"` never contains `"Cookies"`, so it
is always attempted; and a non-empty but non-existent path is truthy, so
strategy 4 is attempted as well.  With every strategy failing, the
invoked-strategy trace shows both. -/
theorem c2_counterexample :
    failEnv.pathExists "/nonexistent/cookies.txt" = false ∧
    (get_transcript_traced failEnv "jNQXAC9IVRw"
        (some "/nonexistent/cookies.txt")).2.attempted = [0, 1, 2, 3, 4] ∧
    (get_transcript_traced failEnv "jNQXAC9IVRw" none).2.attempted = [0, 1, 2, 4] :=
  ⟨rfl, rfl, rfl⟩

/-- C2 (amended): the only strategy the ladder ever skips is strategy 4
(index 3, `"YouTubeTranscriptApi (With Cookies)"`), and it is skipped
exactly when the supplied cookie path is falsy (`None` or empty).
Strategy 3 (index 2, `"yt-dlp Web Client"`) is attempted regardless of the
credential, and a non-empty path that does not exist on disk still counts
as supplied, so nothing is skipped then. -/
theorem c2_skip_rule (cp : Option String) :
    (∀ name i, (name, i) ∈ strategyPairs →
        (skipStrategy name cp = true ↔ i = 3 ∧ cpTruthy cp = false)) ∧
    (∀ (env : FetchEnv) (url : String) (vid : String),
        extract_video_id url = .ok vid →
        (∀ j, stratAttemptFails (env.strat j) = true) →
        (cpTruthy cp = false →
            (get_transcript_traced env url cp).2.attempted = [0, 1, 2, 4]) ∧
        (cpTruthy cp = true →
            (get_transcript_traced env url cp).2.attempted = [0, 1, 2, 3, 4])) := by
  constructor
  · intro name i hmem
    simp only [strategyPairs, List.mem_cons, List.not_mem_nil, or_false] at hmem
    rcases hmem with h | h | h | h | h <;>
      obtain ⟨rfl, rfl⟩ := Prod.mk.injEq .. ▸ h <;>
      cases hcp : cpTruthy cp <;>
      simp +decide [skipStrategy, hcp]
  · intro env url vid hx hfail
    have hall : ∀ p ∈ strategyPairs,
        skipStrategy p.1 cp = true ∨ stratAttemptFails (env.strat p.2) = true :=
      fun p _ => Or.inr (hfail p.2)
    constructor <;> intro hcp <;>
      simp only [get_transcript_traced, hx, tryStrategies_all_fail env.strat cp _ hall] <;>
      simp +decide [strategyPairs, skipStrategy, hcp]

/-- Witness for C2 (amended): the skip rule evaluated at a concrete
falsy and a concrete truthy cookie path, with the all-failing
environment. -/
theorem c2_skip_rule_witness :
    skipStrategy "YouTubeTranscriptApi (With Cookies)" none = true ∧
    skipStrategy "yt-dlp Web Client" none = false ∧
    (get_transcript_traced failEnv "jNQXAC9IVRw" none).2.attempted = [0, 1, 2, 4] ∧
    (get_transcript_traced failEnv "jNQXAC9IVRw"
        (some "/tmp/cookies.txt")).2.attempted = [0, 1, 2, 3, 4] := by
  have h1 := (c2_skip_rule none).1 "YouTubeTranscriptApi (With Cookies)" 3 (by decide)
  have h2 := (c2_skip_rule none).1 "yt-dlp Web Client" 2 (by decide)
  have h3 := ((c2_skip_rule none).2 failEnv "jNQXAC9IVRw" "jNQXAC9IVRw" rfl
    (fun j => rfl)).1 rfl
  have h4 := ((c2_skip_rule (some "/tmp/cookies.txt")).2 failEnv "jNQXAC9IVRw" "jNQXAC9IVRw" rfl
    (fun j => rfl)).2 rfl
  refine ⟨h1.mpr ⟨rfl, rfl⟩, ?_, h3, h4⟩
  cases hs : skipStrategy "yt-dlp Web Client" none with
  | false => rfl
  | true => exact absurd (h2.mp hs).1 (by decide)

/-! ### C3: ladder order, first-success stopping rule, no escaping exception -/

/-- C3: the ladder is tried in the fixed priority order and stops at the
first (non-skipped) strategy returning truthy text: that text is the
returned transcript, the strategies attempted are exactly the non-skipped
ones up to and including the successful one (nothing after it is
invoked); if every strategy is skipped, fails or returns empty text, the
transcript component is `none`; and in every case the orchestrator
returns normally — no exception escapes. -/
theorem c3_ladder_stopping_rule :
    (∀ (env : FetchEnv) (url : String) (cp : Option String),
        ∃ v, get_transcript env url cp = .ok v) ∧
    (∀ (env : FetchEnv) (url : String) (cp : Option String) (vid : String)
        (l1 : List (String × Nat)) (name : String) (i : Nat) (l2 : List (String × Nat))
        (c : Option String),
        extract_video_id url = .ok vid →
        strategyPairs = l1 ++ (name, i) :: l2 →
        (∀ p ∈ l1, skipStrategy p.1 cp = true ∨ stratAttemptFails (env.strat p.2) = true) →
        skipStrategy name cp = false →
        env.strat i = .ok c →
        contentTruthy c = true →
        get_transcript_traced env url cp =
          (.ok (c, get_date_via_ytdlp env cp),
           ⟨1, (l1.filter fun p => !skipStrategy p.1 cp).map Prod.snd ++ [i]⟩)) ∧
    (∀ (env : FetchEnv) (url : String) (cp : Option String) (vid : String),
        extract_video_id url = .ok vid →
        (∀ p ∈ strategyPairs, skipStrategy p.1 cp = true ∨ stratAttemptFails (env.strat p.2) = true) →
        get_transcript_traced env url cp =
          (.ok (none, get_date_via_ytdlp env cp),
           ⟨1, (strategyPairs.filter fun p => !skipStrategy p.1 cp).map Prod.snd⟩)) := by
  refine ⟨?_, ?_, ?_⟩
  · intro env url cp
    simp only [get_transcript, get_transcript_traced]
    cases extract_video_id url with
    | error e => exact ⟨(none, "unknown"), rfl⟩
    | ok vid => exact ⟨_, rfl⟩
  · intro env url cp vid l1 name i l2 c hx hsplit h1 hns ho hc
    simp only [get_transcript_traced, hx, hsplit,
      tryStrategies_first_success env.strat cp l1 name i l2 c h1 hns ho hc]
  · intro env url cp vid hx hall
    simp only [get_transcript_traced, hx, tryStrategies_all_fail env.strat cp _ hall]

/-- Witness for C3: with strategies 1-4 raising and strategy 5 returning
`"strategy five text"`, the orchestrator returns exactly that text, has
attempted all five (cookie path supplied), and stops there. -/
theorem c3_ladder_stopping_rule_witness :
    get_transcript_traced fifthSucceedsEnv "jNQXAC9IVRw" (some "/tmp/cookies.txt") =
      (.ok (some "strategy five text", "unknown"), ⟨1, [0, 1, 2, 3, 4]⟩) ∧
    (∃ v, get_transcript fifthSucceedsEnv "jNQXAC9IVRw" (some "/tmp/cookies.txt") = .ok v) := by
  obtain ⟨hok, hfirst, -⟩ := c3_ladder_stopping_rule
  refine ⟨?_, hok fifthSucceedsEnv "jNQXAC9IVRw" (some "/tmp/cookies.txt")⟩
  have h := hfirst fifthSucceedsEnv "jNQXAC9IVRw" (some "/tmp/cookies.txt") "jNQXAC9IVRw"
    [("YouTubeTranscriptApi (No Cookies)", 0), ("yt-dlp Android Client", 1),
     ("yt-dlp Web Client", 2), ("YouTubeTranscriptApi (With Cookies)", 3)]
    "Manual TimedText API" 4 [] (some "strategy five text")
    rfl rfl (by decide) (by decide) rfl (by decide)
  exact h.trans (by rfl)

/-! ### C4: publish date and transcript are resolved independently -/

/-- C4: on every fetch call that passes ID extraction, the publish date is
resolved exactly once (before and regardless of the ladder outcome), the
returned date component always equals the resolver's output, and when
every strategy fails the outcome still carries that resolved date next to
an absent transcript. -/
theorem c4_date_independent_of_ladder :
    (∀ (env : FetchEnv) (url : String) (cp : Option String) (vid : String),
        extract_video_id url = .ok vid →
        (get_transcript_traced env url cp).2.dateCalls = 1 ∧
        ∃ tr, (get_transcript_traced env url cp).1 = .ok (tr, get_date_via_ytdlp env cp)) ∧
    (∀ (env : FetchEnv) (url : String) (cp : Option String) (vid : String),
        extract_video_id url = .ok vid →
        (∀ p ∈ strategyPairs, skipStrategy p.1 cp = true ∨ stratAttemptFails (env.strat p.2) = true) →
        (get_transcript_traced env url cp).1 = .ok (none, get_date_via_ytdlp env cp)) := by
  constructor
  · intro env url cp vid hx
    constructor
    · simp only [get_transcript_traced, hx]
    · exact ⟨(tryStrategies env.strat cp strategyPairs).1,
        by simp only [get_transcript_traced, hx]⟩
  · intro env url cp vid hx hall
    simp only [get_transcript_traced, hx, tryStrategies_all_fail env.strat cp _ hall]

/-- Witness for C4: every strategy fails yet the outcome still carries the
resolved date `"2024-01-15"` next to an absent transcript, and the date
resolver ran exactly once. -/
theorem c4_date_independent_of_ladder_witness :
    (get_transcript_traced dateOkEnv "jNQXAC9IVRw" none).1 = .ok (none, "2024-01-15") ∧
    (get_transcript_traced dateOkEnv "jNQXAC9IVRw" none).2.dateCalls = 1 := by
  obtain ⟨h1, h2⟩ := c4_date_independent_of_ladder
  refine ⟨?_, (h1 dateOkEnv "jNQXAC9IVRw" none "jNQXAC9IVRw" rfl).1⟩
  have h := h2 dateOkEnv "jNQXAC9IVRw" none "jNQXAC9IVRw" rfl (by decide)
  exact h.trans (by rfl)

/-! ### C5: the publish-date resolver -/

/-- C5: for every oracle behaviour and cookie path, `_get_date_via_ytdlp`
returns the hyphen-inserted ISO form exactly when the metadata extraction
yields an 8-character `upload_date` field, and returns `"unknown"` when
the extraction raises, when the field is missing, and when the field has a
malformed length; its total (`String`) type reflects that it never
raises. -/
theorem c5_date_resolver_spec (env : FetchEnv) (cp : Option String) :
    (env.dateInfo (cookiefileOpt cp env.pathExists) = .error () →
        get_date_via_ytdlp env cp = "unknown") ∧
    (env.dateInfo (cookiefileOpt cp env.pathExists) = .ok none →
        get_date_via_ytdlp env cp = "unknown") ∧
    (∀ d, env.dateInfo (cookiefileOpt cp env.pathExists) = .ok (some d) →
        d.data.length ≠ 8 → get_date_via_ytdlp env cp = "unknown") ∧
    (∀ d, env.dateInfo (cookiefileOpt cp env.pathExists) = .ok (some d) →
        d.data.length = 8 → get_date_via_ytdlp env cp = fmtUploadDate d) := by
  refine ⟨?_, ?_, ?_, ?_⟩
  · intro h
    simp only [get_date_via_ytdlp, h]
  · intro h
    simp only [get_date_via_ytdlp, h]
  · intro d h hlen
    simp only [get_date_via_ytdlp, h]
    rw [if_neg]
    simp only [Bool.and_eq_true, not_and]
    intro _
    simpa using hlen
  · intro d h hlen
    simp only [get_date_via_ytdlp, h]
    rw [if_pos]
    simp only [Bool.and_eq_true]
    refine ⟨?_, by simpa using hlen⟩
    cases hd : d.data with
    | nil => rw [hd] at hlen; cases hlen
    | cons a t => simp

/-- Witness for C5: a malformed 6-character field yields `"unknown"`; an
8-character field `"20240115"` yields `"2024-01-15"`. -/
theorem c5_date_resolver_spec_witness :
    get_date_via_ytdlp shortDateEnv none = "unknown" ∧
    get_date_via_ytdlp dateOkEnv none = "2024-01-15" := by
  have h1 := (c5_date_resolver_spec shortDateEnv none).2.2.1 "202401" rfl (by decide)
  have h2 := (c5_date_resolver_spec dateOkEnv none).2.2.2 "20240115" rfl (by decide)
  exact ⟨h1, h2.trans (by rfl)⟩

/-! ### C9: the caption-track lister never aborts the fetch -/

/-- C9: `_list_tracks` always returns a (possibly empty) `List Track` (its
total type: it cannot raise); on a network error/timeout it returns `[]`,
on a non-200 status it returns `[]`, on an XML parse failure it returns
`[]`, and on a 200 response with a non-blank body whose parse succeeds it
returns exactly the parsed tracks. -/
theorem c9_list_tracks_never_raises :
    (∀ parseTracks, list_tracks (.error ()) parseTracks = []) ∧
    (∀ (status : Nat) (text : String) parseTracks, status ≠ 200 →
        list_tracks (.ok (status, text)) parseTracks = []) ∧
    (∀ (text : String) parseTracks, parseTracks text = .error () →
        list_tracks (.ok (200, text)) parseTracks = []) ∧
    (∀ (text : String) parseTracks ts, parseTracks text = .ok ts →
        (pyStrip text).data.isEmpty = false →
        list_tracks (.ok (200, text)) parseTracks = ts) := by
  refine ⟨fun _ => rfl, ?_, ?_, ?_⟩
  · intro status text parseTracks hst
    simp only [list_tracks]
    rw [if_neg]
    simp only [Bool.and_eq_true, not_and]
    intro hbeq
    exact absurd (eq_of_beq hbeq) hst
  · intro text parseTracks h
    simp only [list_tracks]
    split
    · rw [h]
    · rfl
  · intro text parseTracks ts h hblank
    simp only [list_tracks]
    rw [if_pos (by simp [hblank]), h]

/-- Witness for C9: the four cases at concrete inputs. -/
theorem c9_list_tracks_never_raises_witness :
    list_tracks (.error ()) (fun _ => .ok [trackEnManual]) = [] ∧
    list_tracks (.ok (503, "server error")) (fun _ => .ok [trackEnManual]) = [] ∧
    list_tracks (.ok (200, "<not xml")) (fun _ => .error ()) = [] ∧
    list_tracks (.ok (200, "<transcript_list><track/></transcript_list>"))
      (fun _ => .ok [trackEnManual]) = [trackEnManual] := by
  obtain ⟨h1, h2, h3, h4⟩ := c9_list_tracks_never_raises
  exact ⟨h1 _, h2 503 "server error" _ (by decide), h3 "<not xml" _ rfl,
    h4 "<transcript_list><track/></transcript_list>" _ [trackEnManual] rfl (by decide)⟩

/-! ### C7: ranking in the manual timedtext strategy -/

/-- C7: the manual strategy scores tracks `+100` for exact language `en`,
`+50` for an `en`-prefixed language, `+20` for non-auto-generated kind;
given the tracks `{en/manual}`, `{en/auto}`, `{en-US/manual}` (scores 120,
100, 70) it selects `{en/manual}` first — in either listing order — and
actually fetches that track's payload; and the sort is stable: any two
tracks with equal scores keep their upstream relative order. -/
theorem c7_manual_track_ranking :
    score trackEnManual = some 120 ∧
    score trackEnAuto = some 100 ∧
    score trackEnUsManual = some 70 ∧
    selectedTrack [trackEnManual, trackEnAuto, trackEnUsManual] = some trackEnManual ∧
    selectedTrack [trackEnAuto, trackEnUsManual, trackEnManual] = some trackEnManual ∧
    fetch_manual manualScenarioEnv [trackEnManual, trackEnAuto, trackEnUsManual] =
      .ok (some "hello world") ∧
    (∀ (l : List Track) (a b : Track) (s : Int),
        score a = some s → score b = some s →
        [a, b].Sublist l → [a, b].Sublist (sortTracks l)) := by
  refine ⟨rfl, rfl, rfl, rfl, rfl, rfl, ?_⟩
  intro l a b s ha hb hsub
  exact List.pair_sublist_insertionSort (by simp [scoreD, ha, hb]) hsub

/-- Witness for C7: the stability clause applied to two concrete tracks of
equal score 120 inside a concrete listing. -/
theorem c7_manual_track_ranking_witness :
    [trackEnManual, otherEnManual].Sublist
      (sortTracks [trackEnManual, otherEnManual, trackEnAuto]) := by
  obtain ⟨-, -, -, -, -, -, hstable⟩ := c7_manual_track_ranking
  exact hstable [trackEnManual, otherEnManual, trackEnAuto] trackEnManual otherEnManual 120
    rfl rfl (by decide)

/-! ### C8: idempotence of caption-file cleaning -/

theorem length_dropWhile_le' (p : Char → Bool) (l : List Char) :
    (l.dropWhile p).length ≤ l.length := by
  induction l with
  | nil => simp
  | cons c t ih =>
    rw [List.dropWhile_cons]
    split
    · exact Nat.le_succ_of_le ih
    · simp

theorem dropWhile_head_not (p : Char → Bool) (l : List Char) (a : Char)
    (h : (l.dropWhile p).head? = some a) : p a = false := by
  induction l with
  | nil => simp at h
  | cons c t ih =>
    rw [List.dropWhile_cons] at h
    split at h
    · exact ih h
    · rename_i hp
      simp at h
      subst h
      simpa using hp

theorem dropWhile_getLast? (p : Char → Bool) (l : List Char)
    (h : l.dropWhile p ≠ []) : (l.dropWhile p).getLast? = l.getLast? := by
  obtain ⟨pre, hpre⟩ : ∃ pre, pre ++ l.dropWhile p = l := (List.dropWhile_suffix p (l := l))
  conv_rhs => rw [← hpre]
  rw [List.getLast?_append]
  cases hgl : (l.dropWhile p).getLast? with
  | none => exact absurd (List.getLast?_eq_none_iff.mp hgl) h
  | some b => rfl

theorem mem_stripChars (c : Char) (l : List Char) (h : c ∈ stripChars l) : c ∈ l := by
  unfold stripChars at h
  rw [List.mem_reverse] at h
  have h2 := List.Sublist.mem h (List.dropWhile_sublist _)
  rw [List.mem_reverse] at h2
  exact List.Sublist.mem h2 (List.dropWhile_sublist _)

theorem stripChars_eq_self (l : List Char) (a b : Char)
    (hh : l.head? = some a) (ha : Char.isWhitespace a = false)
    (hl : l.getLast? = some b) (hb : Char.isWhitespace b = false) :
    stripChars l = l := by
  unfold stripChars
  have h1 : l.dropWhile Char.isWhitespace = l := by
    cases l with
    | nil => rfl
    | cons x t =>
      simp at hh
      subst hh
      rw [List.dropWhile_cons, ha]
      simp
  rw [h1]
  have h2 : l.reverse.dropWhile Char.isWhitespace = l.reverse := by
    cases hr : l.reverse with
    | nil => rfl
    | cons y t =>
      have hy : b = y := by
        have h3 : l.reverse.head? = some y := by rw [hr]; rfl
        rw [List.head?_reverse, hl] at h3
        injection h3
      rw [List.dropWhile_cons, ← hy, hb]
      simp
  rw [h2, List.reverse_reverse]

theorem stripChars_head_not_ws (l : List Char) (a : Char)
    (h : (stripChars l).head? = some a) : Char.isWhitespace a = false := by
  unfold stripChars at h
  rw [List.head?_reverse] at h
  have hne : (l.dropWhile Char.isWhitespace).reverse.dropWhile Char.isWhitespace ≠ [] := by
    intro hnil
    rw [hnil] at h
    simp at h
  rw [dropWhile_getLast? _ _ hne, List.getLast?_reverse] at h
  exact dropWhile_head_not _ _ _ h

theorem stripChars_getLast_not_ws (l : List Char) (b : Char)
    (h : (stripChars l).getLast? = some b) : Char.isWhitespace b = false := by
  unfold stripChars at h
  rw [List.getLast?_reverse] at h
  exact dropWhile_head_not _ _ _ h

theorem stripChars_idem (l : List Char) : stripChars (stripChars l) = stripChars l := by
  cases hs : stripChars l with
  | nil => rfl
  | cons a t =>
    have hh : (stripChars l).head? = some a := by rw [hs]; rfl
    have hl : ∃ b, (stripChars l).getLast? = some b := by
      rw [hs]; exact ⟨(a :: t).getLast (by simp), List.getLast?_eq_getLast _ _⟩
    obtain ⟨b, hlb⟩ := hl
    rw [← hs]
    exact stripChars_eq_self _ a b hh (stripChars_head_not_ws l a hh) hlb
      (stripChars_getLast_not_ws l b hlb)

theorem stripChars_len_lt_of_ws_head (l : List Char) (a : Char)
    (hh : l.head? = some a) (ha : Char.isWhitespace a = true) :
    (stripChars l).length < l.length := by
  cases l with
  | nil => simp at hh
  | cons x t =>
    have hx : x = a := by simpa using hh
    unfold stripChars
    rw [List.dropWhile_cons, hx, ha]
    simp only [if_true]
    have e1 := length_dropWhile_le' Char.isWhitespace t
    have e2 := length_dropWhile_le' Char.isWhitespace (t.dropWhile Char.isWhitespace).reverse
    simp only [List.length_reverse] at e2 ⊢
    simp only [List.length_cons]
    omega

theorem stripChars_len_lt_of_ws_last (l : List Char) (b : Char)
    (hl : l.getLast? = some b) (hb : Char.isWhitespace b = true) :
    (stripChars l).length < l.length := by
  unfold stripChars
  rw [List.length_reverse]
  cases hrr : (l.dropWhile Char.isWhitespace).reverse with
  | nil =>
    simp only [List.dropWhile_nil, List.length_nil]
    have hlne : l ≠ [] := by
      intro hnil
      rw [hnil] at hl
      simp at hl
    cases l with
    | nil => exact absurd rfl hlne
    | cons x t => simp
  | cons z r =>
    have hne : l.dropWhile Char.isWhitespace ≠ [] := by
      intro h0
      rw [h0] at hrr
      simp at hrr
    have hz : z = b := by
      have h3 : (l.dropWhile Char.isWhitespace).reverse.head? = some b := by
        rw [List.head?_reverse, dropWhile_getLast? _ _ hne, hl]
      rw [hrr] at h3
      simpa using h3
    have hlenr : (l.dropWhile Char.isWhitespace).length = r.length + 1 := by
      have h4 := congrArg List.length hrr
      simpa using h4
    have h2 := length_dropWhile_le' Char.isWhitespace r
    have h3 := length_dropWhile_le' Char.isWhitespace l
    rw [List.dropWhile_cons, hz, hb]
    simp only [if_true]
    omega

theorem trimmed_head_not_ws (l : List Char) (a : Char)
    (ht : stripChars l = l) (hh : l.head? = some a) : Char.isWhitespace a = false := by
  cases hw : Char.isWhitespace a with
  | false => rfl
  | true =>
    have := stripChars_len_lt_of_ws_head l a hh hw
    rw [ht] at this
    omega

theorem trimmed_last_not_ws (l : List Char) (b : Char)
    (ht : stripChars l = l) (hl : l.getLast? = some b) : Char.isWhitespace b = false := by
  cases hw : Char.isWhitespace b with
  | false => rfl
  | true =>
    have := stripChars_len_lt_of_ws_last l b hl hw
    rw [ht] at this
    omega


theorem splitlinesAux_no_break (cs acc : List Char)
    (hacc : ∀ c ∈ acc, c ≠ '\n' ∧ c ≠ '\x0d') :
    ∀ s ∈ splitlinesAux cs acc, ∀ c ∈ s.data, c ≠ '\n' ∧ c ≠ '\x0d' := by
  induction cs, acc using splitlinesAux.induct with
  | case1 acc hemp =>
    intro s hs
    rw [splitlinesAux, if_pos hemp] at hs
    simp at hs
  | case2 acc hemp =>
    intro s hs c hc
    rw [splitlinesAux, if_neg hemp] at hs
    simp at hs
    subst hs
    simp at hc
    exact hacc c hc
  | case3 t acc ih =>
    intro s hs c hc
    rw [splitlinesAux] at hs
    rcases List.mem_cons.mp hs with rfl | hs2
    · rw [List.mem_reverse] at hc
      exact hacc c hc
    · exact ih (by simp) s hs2 c hc
  | case4 t acc ih =>
    intro s hs c hc
    rw [splitlinesAux] at hs
    rcases List.mem_cons.mp hs with rfl | hs2
    · rw [List.mem_reverse] at hc
      exact hacc c hc
    · exact ih (by simp) s hs2 c hc
  | case5 t acc hcond ih =>
    intro s hs c hc
    rw [splitlinesAux.eq_4 acc t hcond] at hs
    rcases List.mem_cons.mp hs with rfl | hs2
    · rw [List.mem_reverse] at hc
      exact hacc c hc
    · exact ih (by simp) s hs2 c hc
  | case6 c0 t acc h1 h2 h3 ih =>
    intro s hs c hc
    rw [splitlinesAux.eq_5 acc c0 t h1 h2 h3] at hs
    refine ih ?_ s hs c hc
    intro x hx
    rcases List.mem_cons.mp hx with rfl | hx2
    · exact ⟨h2, h3⟩
    · exact hacc x hx2

theorem splitlinesAux_no_break_eq (cs : List Char)
    (h : ∀ c ∈ cs, c ≠ '\n' ∧ c ≠ '\x0d') :
    ∀ acc : List Char, acc.reverse ++ cs ≠ [] →
      splitlinesAux cs acc = [String.mk (acc.reverse ++ cs)] := by
  induction cs with
  | nil =>
    intro acc hne
    rw [splitlinesAux]
    rw [if_neg (by simpa using hne)]
    simp
  | cons c t ih =>
    intro acc hne
    have hc := h c (List.mem_cons_self _ _)
    rw [splitlinesAux.eq_5 acc c t (fun _ hcr _ => hc.2 hcr) hc.1 hc.2]
    have ht : ∀ x ∈ t, x ≠ '\n' ∧ x ≠ '\x0d' := fun x hx => h x (List.mem_cons_of_mem _ hx)
    have := ih ht (c :: acc) (by simp)
    rw [this]
    simp



theorem isPrefixOf_append_space (lit : List Char) (hsp : ∀ x ∈ lit, x ≠ ' ') :
    ∀ (a b : List Char), lit.isPrefixOf (a ++ ' ' :: b) = lit.isPrefixOf a := by
  induction lit with
  | nil => intro a b; simp [List.isPrefixOf]
  | cons x xt ih =>
    intro a b
    have hx : x ≠ ' ' := hsp x (List.mem_cons_self _ _)
    cases a with
    | nil =>
      simp only [List.nil_append, List.isPrefixOf]
      rw [show (x == ' ') = false from beq_eq_false_iff_ne.mpr hx]
      simp
    | cons y yt =>
      simp only [List.cons_append, List.isPrefixOf]
      congr 1
      exact ih (fun z hz => hsp z (List.mem_cons_of_mem _ hz)) yt b

theorem contains_append_space (lit : List Char) (hsp : ∀ x ∈ lit, x ≠ ' ')
    (hne : lit ≠ []) :
    ∀ (a b : List Char),
      listContainsSub lit (a ++ ' ' :: b) = (listContainsSub lit a || listContainsSub lit b) := by
  intro a
  induction a with
  | nil =>
    intro b
    simp only [List.nil_append, listContainsSub]
    cases lit with
    | nil => exact absurd rfl hne
    | cons x xt =>
      have hx : x ≠ ' ' := hsp x (List.mem_cons_self _ _)
      simp only [List.isPrefixOf]
      rw [show (x == ' ') = false from beq_eq_false_iff_ne.mpr hx]
      simp [listContainsSub]
  | cons y yt ih =>
    intro b
    have hstep : ((y :: yt) ++ ' ' :: b) = y :: (yt ++ ' ' :: b) := rfl
    have h1 := isPrefixOf_append_space lit hsp (y :: yt) b
    rw [hstep] at h1
    rw [hstep]
    simp only [listContainsSub]
    rw [h1, ih b, Bool.or_assoc]

theorem joinChars_ne_nil (sep : List Char) (k : List Char) (ks : List (List Char))
    (hk : k ≠ []) : joinChars sep (k :: ks) ≠ [] := by
  cases ks with
  | nil => exact hk
  | cons k2 ks2 =>
    rw [joinChars]
    simp [List.append_eq_nil, hk]

theorem joinChars_head? (sep : List Char) (k : List Char) (ks : List (List Char))
    (hk : k ≠ []) : (joinChars sep (k :: ks)).head? = k.head? := by
  cases ks with
  | nil => rfl
  | cons k2 ks2 =>
    rw [joinChars, List.append_assoc, List.head?_append]
    cases hh : k.head? with
    | none => exact absurd (List.head?_eq_none_iff.mp hh) hk
    | some a => rfl

theorem joinChars_getLast? (sep : List Char) :
    ∀ (parts : List (List Char)), parts ≠ [] → (∀ p ∈ parts, p ≠ []) →
      ∃ p ∈ parts, (joinChars sep parts).getLast? = p.getLast?
  | [], hne, _ => absurd rfl hne
  | [k], _, _ => ⟨k, List.mem_cons_self _ _, rfl⟩
  | k :: k2 :: ks, _, hall => by
    obtain ⟨p, hp, hgl⟩ := joinChars_getLast? sep (k2 :: ks) (by simp)
      fun q hq => hall q (List.mem_cons_of_mem _ hq)
    refine ⟨p, List.mem_cons_of_mem _ hp, ?_⟩
    rw [joinChars, List.append_assoc, List.getLast?_append, List.getLast?_append]
    have hjne : joinChars sep (k2 :: ks) ≠ [] :=
      joinChars_ne_nil sep k2 ks (hall k2 (by simp))
    cases hgl2 : (joinChars sep (k2 :: ks)).getLast? with
    | none => exact absurd (List.getLast?_eq_none_iff.mp hgl2) hjne
    | some b =>
      rw [hgl2] at hgl
      rw [← hgl]
      rfl

theorem mem_joinChars (sep : List Char) :
    ∀ (parts : List (List Char)) (c : Char), c ∈ joinChars sep parts →
      c ∈ sep ∨ ∃ p ∈ parts, c ∈ p
  | [], c, h => by simp [joinChars] at h
  | [k], c, h => Or.inr ⟨k, List.mem_cons_self _ _, h⟩
  | k :: k2 :: ks, c, h => by
    rw [joinChars] at h
    rcases List.mem_append.mp h with h1 | h2
    · rcases List.mem_append.mp h1 with h3 | h4
      · exact Or.inr ⟨k, List.mem_cons_self _ _, h3⟩
      · exact Or.inl h4
    · rcases mem_joinChars sep (k2 :: ks) c h2 with h5 | ⟨p, hp, hcp⟩
      · exact Or.inl h5
      · exact Or.inr ⟨p, List.mem_cons_of_mem _ hp, hcp⟩

theorem contains_joinChars_false (nd : List Char) (hsp : ∀ x ∈ nd, x ≠ ' ')
    (hne : nd ≠ []) :
    ∀ parts : List (List Char), (∀ p ∈ parts, listContainsSub nd p = false) →
      listContainsSub nd (joinChars [' '] parts) = false
  | [], _ => by
    cases nd with
    | nil => exact absurd rfl hne
    | cons x xt => rfl
  | [k], hall => hall k (List.mem_cons_self _ _)
  | k :: k2 :: ks, hall => by
    rw [joinChars, List.append_assoc, List.singleton_append]
    rw [contains_append_space nd hsp hne]
    rw [hall k (List.mem_cons_self _ _)]
    rw [contains_joinChars_false nd hsp hne (k2 :: ks)
      fun q hq => hall q (List.mem_cons_of_mem _ hq)]
    rfl


theorem map_nl_id (l : List Char) (h : ∀ c ∈ l, c ≠ '\n') :
    (l.map fun c => if c == '\n' then ' ' else c) = l := by
  induction l with
  | nil => rfl
  | cons c t ih =>
    rw [List.map_cons]
    rw [show (if c == '\n' then ' ' else c) = c by
      rw [show (c == '\n') = false from beq_eq_false_iff_ne.mpr (h c (List.mem_cons_self _ _))]
      rfl]
    rw [ih fun x hx => h x (List.mem_cons_of_mem _ hx)]

theorem keepLine_parts (s : String) (h : keepLine s = true) :
    s.data.isEmpty = false ∧ pyStartsWith s "WEBVTT" = false ∧
    containsSub s "-->" = false ∧ pyIsDigit s = false := by
  unfold keepLine at h
  simp only [Bool.not_eq_true', Bool.or_eq_false_iff] at h
  exact ⟨h.1.1.1, h.1.1.2, h.1.2, h.2⟩

theorem keepLine_build (s : String) (h1 : s.data.isEmpty = false)
    (h2 : pyStartsWith s "WEBVTT" = false) (h3 : containsSub s "-->" = false)
    (h4 : pyIsDigit s = false) : keepLine s = true := by
  unfold keepLine
  rw [h1, h2, h3, h4]
  rfl

theorem all_eq_false_of_mem (p : Char → Bool) (l : List Char) (x : Char)
    (hx : x ∈ l) (hp : p x = false) : l.all p = false := by
  cases hall : l.all p with
  | false => rfl
  | true =>
    have := List.all_eq_true.mp hall x hx
    rw [hp] at this
    cases this

/-- A cleaned string is a fixed point of the cleaning. -/
theorem cleanVtt_fixed (s : String)
    (hne : s.data ≠ [])
    (hnb : ∀ c ∈ s.data, c ≠ '\n' ∧ c ≠ '\x0d')
    (ht : stripChars s.data = s.data)
    (hk : keepLine s = true) :
    cleanVtt s = s := by
  have hsplit : pySplitlines s = [s] := by
    unfold pySplitlines
    have h := splitlinesAux_no_break_eq s.data hnb [] (by simpa using hne)
    simpa using h
  have hstrip : pyStrip s = s := by
    unfold pyStrip
    rw [ht]
  show pyReplaceNlSpace (pyJoin " " (((pySplitlines s).map pyStrip).filter keepLine)) = s
  rw [hsplit, List.map_cons, List.map_nil, hstrip, List.filter_cons, hk]
  show pyReplaceNlSpace (pyJoin " " [s]) = s
  have hjoin : pyJoin " " [s] = s := rfl
  rw [hjoin]
  unfold pyReplaceNlSpace
  rw [map_nl_id s.data fun c hc => (hnb c hc).1]

/-- C8: the caption-file cleaning of `_read_and_clean_vtt` (discard blank
lines, `WEBVTT` header lines, timing-cue lines containing the arrow
marker, and pure sequence-number lines; strip and join the rest in
original order) is idempotent: applying the cleaning to its own output
yields the same output, for every input. -/
theorem c8_cleaning_idempotent (vtt : String) : cleanVtt (cleanVtt vtt) = cleanVtt vtt := by
  have hrw : cleanVtt vtt =
      pyReplaceNlSpace (pyJoin " " (((pySplitlines vtt).map pyStrip).filter keepLine)) := rfl
  cases hk : ((pySplitlines vtt).map pyStrip).filter keepLine with
  | nil =>
    rw [hrw, hk]
    rfl
  | cons k ks =>
    have hmem : ∀ x ∈ k :: ks,
        keepLine x = true ∧ (∀ c ∈ x.data, c ≠ '\n' ∧ c ≠ '\x0d') ∧
        stripChars x.data = x.data := by
      intro x hx
      rw [← hk] at hx
      have hkeep := List.of_mem_filter hx
      have hx2 := List.mem_of_mem_filter hx
      obtain ⟨line, hline, hxline⟩ := List.mem_map.mp hx2
      refine ⟨hkeep, ?_, ?_⟩
      · intro c hc
        have hcl : c ∈ line.data := by
          rw [← hxline] at hc
          exact mem_stripChars c line.data hc
        exact splitlinesAux_no_break vtt.data [] (by simp) line hline c hcl
      · rw [← hxline]
        exact stripChars_idem line.data
    have hkd := hmem k (List.mem_cons_self _ _)
    have hkne : k.data ≠ [] := by
      have h1 := (keepLine_parts k hkd.1).1
      intro hnil
      rw [hnil] at h1
      simp at h1
    have hJdata : (pyJoin " " (k :: ks)).data =
        joinChars [' '] (k.data :: ks.map String.data) := rfl
    have hJne : (pyJoin " " (k :: ks)).data ≠ [] := by
      rw [hJdata]
      exact joinChars_ne_nil _ _ _ hkne
    have hJnb : ∀ c ∈ (pyJoin " " (k :: ks)).data, c ≠ '\n' ∧ c ≠ '\x0d' := by
      intro c hc
      rw [hJdata] at hc
      rcases mem_joinChars _ _ c hc with hsep | ⟨p, hp, hcp⟩
      · simp at hsep
        subst hsep
        exact ⟨by decide, by decide⟩
      · rcases List.mem_cons.mp hp with rfl | hp2
        · exact hkd.2.1 c hcp
        · obtain ⟨x, hx, rfl⟩ := List.mem_map.mp hp2
          exact (hmem x (List.mem_cons_of_mem _ hx)).2.1 c hcp
    have hReplace : pyReplaceNlSpace (pyJoin " " (k :: ks)) = pyJoin " " (k :: ks) := by
      unfold pyReplaceNlSpace
      rw [map_nl_id _ fun c hc => (hJnb c hc).1]
    have hout : cleanVtt vtt = pyJoin " " (k :: ks) := by
      rw [hrw, hk, hReplace]
    have hpartsne : ∀ p ∈ k.data :: ks.map String.data, p ≠ [] := by
      intro p hp
      rcases List.mem_cons.mp hp with rfl | hp2
      · exact hkne
      · obtain ⟨x, hx, rfl⟩ := List.mem_map.mp hp2
        have h1 := (keepLine_parts x (hmem x (List.mem_cons_of_mem _ hx)).1).1
        intro hnil
        rw [hnil] at h1
        simp at h1
    have hJtrim : stripChars (pyJoin " " (k :: ks)).data = (pyJoin " " (k :: ks)).data := by
      obtain ⟨a, ta, hka⟩ : ∃ a ta, k.data = a :: ta := by
        cases hkdd : k.data with
        | nil => exact absurd hkdd hkne
        | cons a ta => exact ⟨a, ta, rfl⟩
      have hha : (pyJoin " " (k :: ks)).data.head? = some a := by
        rw [hJdata, joinChars_head? _ _ _ hkne, hka]
        rfl
      have hwa : Char.isWhitespace a = false :=
        trimmed_head_not_ws k.data a hkd.2.2 (by rw [hka]; rfl)
      obtain ⟨p, hp, hgl⟩ := joinChars_getLast? [' '] (k.data :: ks.map String.data)
        (by simp) hpartsne
      have hpx : ∃ x ∈ k :: ks, x.data = p := by
        rcases List.mem_cons.mp hp with rfl | hp2
        · exact ⟨k, List.mem_cons_self _ _, rfl⟩
        · obtain ⟨x, hx, rfl⟩ := List.mem_map.mp hp2
          exact ⟨x, List.mem_cons_of_mem _ hx, rfl⟩
      obtain ⟨x, hxmem, hxp⟩ := hpx
      obtain ⟨b, tb, hpb⟩ : ∃ b tb, p.reverse = b :: tb := by
        cases hpr : p.reverse with
        | nil =>
          have : p = [] := by simpa using congrArg List.reverse hpr
          exact absurd this (hpartsne p hp)
        | cons b tb => exact ⟨b, tb, rfl⟩
      have hglb : p.getLast? = some b := by
        rw [← List.head?_reverse, hpb]
        rfl
      have hwb : Char.isWhitespace b = false := by
        refine trimmed_last_not_ws x.data b (hmem x hxmem).2.2 ?_
        rw [hxp, hglb]
      refine stripChars_eq_self _ a b hha hwa ?_ hwb
      rw [hJdata]
      rw [hgl, hglb]
    have hJkeep : keepLine (pyJoin " " (k :: ks)) = true := by
      refine keepLine_build _ ?_ ?_ ?_ ?_
      · cases hJd : (pyJoin " " (k :: ks)).data with
        | nil => exact absurd hJd hJne
        | cons y t => rfl
      · show ("WEBVTT".data).isPrefixOf (pyJoin " " (k :: ks)).data = false
        have hkfalse : ("WEBVTT".data).isPrefixOf k.data = false := (keepLine_parts k hkd.1).2.1
        cases ks with
        | nil => exact hkfalse
        | cons k2 ks2 =>
          rw [hJdata]
          show ("WEBVTT".data).isPrefixOf
            (joinChars [' '] (k.data :: k2.data :: ks2.map String.data)) = false
          rw [joinChars, List.append_assoc, List.singleton_append]
          rw [isPrefixOf_append_space "WEBVTT".data (by decide) k.data _]
          exact hkfalse
      · show listContainsSub ("-->".data) (pyJoin " " (k :: ks)).data = false
        rw [hJdata]
        refine contains_joinChars_false "-->".data (by decide) (by decide) _ ?_
        intro p hp
        rcases List.mem_cons.mp hp with rfl | hp2
        · exact (keepLine_parts k hkd.1).2.2.1
        · obtain ⟨x, hx, rfl⟩ := List.mem_map.mp hp2
          exact (keepLine_parts x (hmem x (List.mem_cons_of_mem _ hx)).1).2.2.1
      · cases ks with
        | nil => exact (keepLine_parts k hkd.1).2.2.2
        | cons k2 ks2 =>
          unfold pyIsDigit
          have hsp : ' ' ∈ (pyJoin " " (k :: k2 :: ks2)).data := by
            rw [hJdata]
            show ' ' ∈ joinChars [' '] (k.data :: k2.data :: ks2.map String.data)
            rw [joinChars, List.append_assoc, List.singleton_append]
            exact List.mem_append.mpr (Or.inr (List.mem_cons_self _ _))
          rw [all_eq_false_of_mem Char.isDigit _ ' ' hsp (by decide)]
          rw [Bool.and_false]
    rw [hout]
    exact cleanVtt_fixed (pyJoin " " (k :: ks)) hJne hJnb hJtrim hJkeep
